import Mathlib

/-!
Verification of the NACA 4-digit airfoil generator (naca.py).

The single source function `NACA4(number, N, half_cosine_spacing,
closed_trailing_edge, save_to_file)` is embedded shallowly: machine floats
become real numbers, NumPy arrays become lists of reals, and each Python
failure mode (the explicit `raise ValueError("Invalid input.")`, a
`ValueError` from a failed `float`/`int` conversion, an `IndexError` from
string indexing) becomes a constructor of an error type returned through
`Except`.
-/

namespace Naca

/-- ASCII digit test, modelling the class of characters accepted by Python's
`int`/`float` conversions as they are applied to the designator string. -/
def isDigitChar (c : Char) : Bool := 48 ≤ c.toNat && c.toNat ≤ 57

/-- Numeric value of an ASCII digit character. -/
def digitVal (c : Char) : ℕ := c.toNat - 48

/-- Value of a string of ASCII digits, most significant digit first. -/
def digitsToNat (cs : List Char) : ℕ := cs.foldl (fun acc c => 10 * acc + digitVal c) 0

/-- All characters of the list are ASCII digits. -/
def allDigits (cs : List Char) : Bool := cs.all isDigitChar

/-- Python `int(s)` restricted to the syntactic forms relevant to naca.py:
an optional sign character followed by one or more ASCII digits parses to the
signed value; anything else raises `ValueError`, modelled as `none`. -/
def pyInt (s : String) : Option ℤ :=
  match s.data with
  | [] => none
  | c :: cs =>
    if c = '+' then
      if cs ≠ [] ∧ allDigits cs = true then some (digitsToNat cs) else none
    else if c = '-' then
      if cs ≠ [] ∧ allDigits cs = true then some (-(digitsToNat cs : ℤ)) else none
    else if allDigits (c :: cs) = true then some (digitsToNat (c :: cs)) else none

/-- The Python exceptions that `NACA4` can raise.  `invalidInput` is the
`ValueError` raised during the validation check (including a `ValueError`
raised by `int(number)` itself inside that check); `valueError` is a
`ValueError` from a later `float(...)` conversion; `indexError` comes from
out-of-range string indexing such as `number[1]`. -/
inductive PyError where
  | invalidInput
  | valueError
  | indexError
deriving DecidableEq

/-- Python string indexing `s[i]` (for nonnegative `i`): the character, or
`IndexError` when `i` is out of range. -/
def pyStrAt (s : String) (i : ℕ) : Except PyError Char :=
  match s.data[i]? with
  | some c => Except.ok c
  | none => Except.error PyError.indexError

/-- Python `float(c)` on a single character: a digit converts to its value,
anything else (such as a sign character) raises `ValueError`. -/
noncomputable def pyFloatChar (c : Char) : Except PyError ℝ :=
  if isDigitChar c then Except.ok ((digitVal c : ℕ) : ℝ) else Except.error PyError.valueError

/-- Python `float(s)` on the slices of the designator that reach it: a
nonempty all-digit string converts to its value; the empty string (from
`number[2:]` on a short designator) or any other string raises `ValueError`. -/
noncomputable def pyFloatOfString (s : String) : Except PyError ℝ :=
  if s.data ≠ [] ∧ allDigits s.data = true then Except.ok ((digitsToNat s.data : ℕ) : ℝ)
  else Except.error PyError.valueError

/-- The scaling pattern `if v != 0: v = v / c` applied to `m`, `p` and `t`. -/
noncomputable def scaleNonzero (v c : ℝ) : ℝ := if v ≠ 0 then v / c else v

/-- `np.linspace a b n`: `n` evenly spaced samples from `a` to `b` inclusive
(for `n = 1` NumPy returns just `[a]`, which the formula below also yields
since division by zero is zero). -/
noncomputable def linspace (a b : ℝ) (n : ℕ) : List ℝ :=
  (List.range n).map (fun i : ℕ => a + (b - a) * (i : ℝ) / ((n : ℝ) - 1))

/-- The chordwise sampling grid `x` of naca.py:
`(1 - np.cos(np.linspace(0, pi, N))) / 2` under half-cosine spacing,
`np.linspace(0, 1, N)` otherwise. -/
noncomputable def grid (hcs : Bool) (n : ℕ) : List ℝ :=
  if hcs then (linspace 0 Real.pi n).map (fun th => (1 - Real.cos th) / 2)
  else linspace 0 1 n

/-- The closed-trailing-edge thickness branch of naca.py:
`t / 0.20 * (0.29690*sqrt x - 0.12600*x - 0.35160*x^2 + 0.28430*x^3 - 0.10360*x^4)`. -/
noncomputable def thicknessClosedAt (t x : ℝ) : ℝ :=
  t / 0.20 * (0.29690 * Real.sqrt x - 0.12600 * x - 0.35160 * x ^ 2 +
    0.28430 * x ^ 3 - 0.10360 * x ^ 4)

/-- The open-trailing-edge thickness branch of naca.py:
`t / 0.20 * (0.29690*sqrt x - 0.12600*x - 0.35160*x^2 + 0.28430*x^3 - 0.10150*x^4)`. -/
noncomputable def thicknessOpenAt (t x : ℝ) : ℝ :=
  t / 0.20 * (0.29690 * Real.sqrt x - 0.12600 * x - 0.35160 * x ^ 2 +
    0.28430 * x ^ 3 - 0.10150 * x ^ 4)

/-- The `thickness` array: the closed or the open branch applied to the grid. -/
noncomputable def thicknessList (t : ℝ) (cte : Bool) (xs : List ℝ) : List ℝ :=
  if cte then xs.map (thicknessClosedAt t) else xs.map (thicknessOpenAt t)

/-- The `camber` array of naca.py: the grid is split by the boolean masks
`x < p` and `x >= p` into `fwd_x` and `aft_x`; when `0 < p < 1 and 0 < m < 1`
the two camber polynomials are applied to the two parts and the results
appended, otherwise the camber is an all-zero array of the grid's length. -/
noncomputable def camberList (m p : ℝ) (xs : List ℝ) : List ℝ :=
  if 0 < p ∧ p < 1 ∧ 0 < m ∧ m < 1 then
    ((xs.filter (fun xi => decide (xi < p))).map
        (fun xi => m / p ^ 2 * (2 * p * xi - xi ^ 2))) ++
      ((xs.filter (fun xi => decide (p ≤ xi))).map
        (fun xi => m / (1 - p) ^ 2 * ((1 - 2 * p) + 2 * p * xi - xi ^ 2)))
  else List.replicate xs.length 0

/-- The `y_upper` array: `np.add(camber, thickness)`, elementwise. -/
noncomputable def yUpperList (m p t : ℝ) (cte : Bool) (xs : List ℝ) : List ℝ :=
  List.zipWith (· + ·) (camberList m p xs) (thicknessList t cte xs)

/-- The `y_lower` array: `np.subtract(camber, thickness)`, elementwise. -/
noncomputable def yLowerList (m p t : ℝ) (cte : Bool) (xs : List ℝ) : List ℝ :=
  List.zipWith (· - ·) (camberList m p xs) (thicknessList t cte xs)

/-- The assembled x column: `np.append(np.flipud(x), x[1:])`. -/
noncomputable def xAll (hcs : Bool) (N : ℕ) : List ℝ :=
  (grid hcs N).reverse ++ (grid hcs N).drop 1

/-- The assembled y column before trailing-edge zeroing:
`np.append(np.flipud(y_upper), y_lower[1:])`. -/
noncomputable def yAll (m p t : ℝ) (N : ℕ) (hcs cte : Bool) : List ℝ :=
  (yUpperList m p t cte (grid hcs N)).reverse ++
    (yLowerList m p t cte (grid hcs N)).drop 1

/-- The y column after the `y[0] = 0; y[-1] = 0` assignments that naca.py
performs when the trailing edge is closed. -/
noncomputable def yFinal (m p t : ℝ) (N : ℕ) (hcs cte : Bool) : List ℝ :=
  if cte then
    ((yAll m p t N hcs cte).set 0 0).set ((yAll m p t N hcs cte).length - 1) 0
  else yAll m p t N hcs cte

/-- The `coordinates` matrix `np.column_stack((x, y))`, as a list of pairs. -/
noncomputable def airfoil (m p t : ℝ) (N : ℕ) (hcs cte : Bool) : List (ℝ × ℝ) :=
  (xAll hcs N).zip (yFinal m p t N hcs cte)

/-- Shallow embedding of `NACA4(number, N, half_cosine_spacing,
closed_trailing_edge, save_to_file)`.  The validation check
`0 < int(number) < 10000 and N > 0` runs first (a conversion failure inside
it is also a `ValueError`); then `m`, `p`, `t` are read from `number[0]`,
`number[1]`, `number[2:]` and scaled; the returned coordinate list does not
depend on `save_to_file`. -/
noncomputable def NACA4 (number : String) (N : ℕ)
    (half_cosine_spacing closed_trailing_edge _save_to_file : Bool) :
    Except PyError (List (ℝ × ℝ)) :=
  match pyInt number with
  | none => Except.error PyError.invalidInput
  | some v =>
    if 0 < v ∧ v < 10000 ∧ 0 < N then
      match pyStrAt number 0 with
      | Except.error e => Except.error e
      | Except.ok c0 =>
      match pyFloatChar c0 with
      | Except.error e => Except.error e
      | Except.ok m0 =>
      match pyStrAt number 1 with
      | Except.error e => Except.error e
      | Except.ok c1 =>
      match pyFloatChar c1 with
      | Except.error e => Except.error e
      | Except.ok p0 =>
      match pyFloatOfString (String.mk (number.data.drop 2)) with
      | Except.error e => Except.error e
      | Except.ok t0 =>
        Except.ok (airfoil (scaleNonzero m0 100) (scaleNonzero p0 10)
          (scaleNonzero t0 100) N half_cosine_spacing closed_trailing_edge)
    else Except.error PyError.invalidInput

/-- Modelled from NumPy's documented `np.savetxt` semantics (library code,
not part of this repository): the header string is written first, prefixed
by the default comment marker `"# "` and followed by a newline; then each
row is written as its two entries rendered by the format `fmt` (naca.py
passes `'%f'`, abstracted here as a function from reals to strings) joined
by the `'\t'` delimiter and followed by a newline. -/
def savetxtContent (fmt : ℝ → String) (header : String) (rows : List (ℝ × ℝ)) : String :=
  "# " ++ header ++ "\n" ++ String.join (rows.map (fun r => fmt r.1 ++ "\t" ++ fmt r.2 ++ "\n"))

/-- The name of the file naca.py writes: `"NACA " + number + ".dat"`. -/
def savedFileName (number : String) : String := "NACA " ++ number ++ ".dat"

/-- The content of the file written when `save_to_file` is set:
`np.savetxt("NACA " + number + ".dat", coordinates, delimiter='\t',
fmt='%f', header="NACA " + number)` applied to the computed coordinates. -/
noncomputable def NACA4FileContent (fmt : ℝ → String) (number : String) (N : ℕ)
    (hcs cte : Bool) : Except PyError String :=
  (NACA4 number N hcs cte true).map (savetxtContent fmt ("NACA " ++ number))

/-- First line of a string: the characters up to the first newline. -/
def firstLine (s : String) : String := String.mk (s.data.takeWhile (fun c => c ≠ '\n'))

/-- Decision of the validation check `0 < int(number) < 10000 and N > 0`. -/
def validationPasses (s : String) (N : ℕ) : Bool :=
  match pyInt s with
  | some v => decide (0 < v) && decide (v < 10000) && decide (0 < N)
  | none => false

/-! ### Lemmas about designator parsing -/

theorem scaleNonzero_eq_div (v c : ℝ) : scaleNonzero v c = v / c := by
  unfold scaleNonzero
  by_cases h : v = 0
  · simp [h]
  · simp [h]

theorem digitVal_le_nine {c : Char} (h : isDigitChar c = true) : digitVal c ≤ 9 := by
  unfold isDigitChar at h
  unfold digitVal
  simp only [Bool.and_eq_true, decide_eq_true_eq] at h
  omega

theorem isDigitChar_ne_plus {c : Char} (h : isDigitChar c = true) : c ≠ '+' := by
  intro hc
  subst hc
  simp [isDigitChar] at h

theorem isDigitChar_ne_minus {c : Char} (h : isDigitChar c = true) : c ≠ '-' := by
  intro hc
  subst hc
  simp [isDigitChar] at h

theorem foldl_digits_lt (cs : List Char) :
    ∀ acc : ℕ, allDigits cs = true →
      cs.foldl (fun acc c => 10 * acc + digitVal c) acc < (acc + 1) * 10 ^ cs.length := by
  induction cs with
  | nil =>
    intro acc _
    simp only [List.foldl_nil, List.length_nil, pow_zero, mul_one]
    exact Nat.lt_succ_self acc
  | cons c cs ih =>
    intro acc h
    simp only [allDigits, List.all_cons, Bool.and_eq_true] at h
    have hc : digitVal c ≤ 9 := digitVal_le_nine h.1
    have hrec := ih (10 * acc + digitVal c) (by simpa [allDigits] using h.2)
    simp only [List.foldl_cons, List.length_cons]
    calc List.foldl (fun acc c => 10 * acc + digitVal c) (10 * acc + digitVal c) cs
        < (10 * acc + digitVal c + 1) * 10 ^ cs.length := hrec
      _ ≤ (acc + 1) * 10 ^ (cs.length + 1) := by
          have : 10 * acc + digitVal c + 1 ≤ (acc + 1) * 10 := by omega
          calc (10 * acc + digitVal c + 1) * 10 ^ cs.length
              ≤ (acc + 1) * 10 * 10 ^ cs.length := Nat.mul_le_mul_right _ this
            _ = (acc + 1) * 10 ^ (cs.length + 1) := by ring

theorem digitsToNat_lt (cs : List Char) (h : allDigits cs = true) :
    digitsToNat cs < 10 ^ cs.length := by
  simpa [digitsToNat] using foldl_digits_lt cs 0 h

theorem pyInt_digits (c : Char) (cs : List Char)
    (hc : isDigitChar c = true) (hcs : allDigits cs = true) :
    pyInt (String.mk (c :: cs)) = some ((digitsToNat (c :: cs) : ℤ)) := by
  unfold pyInt
  have h1 : allDigits (c :: cs) = true := by
    simp only [allDigits, List.all_cons, Bool.and_eq_true]
    exact ⟨hc, by simpa [allDigits] using hcs⟩
  simp [isDigitChar_ne_plus hc, isDigitChar_ne_minus hc, h1]

theorem NACA4_ok (a b : Char) (rest : List Char) (N : ℕ) (hcs cte save : Bool)
    (ha : isDigitChar a = true) (hb : isDigitChar b = true)
    (hrest : allDigits rest = true) (hne : rest ≠ [])
    (hpos : 0 < digitsToNat (a :: b :: rest))
    (hlt : digitsToNat (a :: b :: rest) < 10000) (hN : 0 < N) :
    NACA4 (String.mk (a :: b :: rest)) N hcs cte save =
      Except.ok (airfoil ((digitVal a : ℝ) / 100) ((digitVal b : ℝ) / 10)
        ((digitsToNat rest : ℝ) / 100) N hcs cte) := by
  have hall : allDigits (b :: rest) = true := by
    simp only [allDigits, List.all_cons, Bool.and_eq_true]
    exact ⟨hb, by simpa [allDigits] using hrest⟩
  have hint := pyInt_digits a (b :: rest) ha hall
  have hcond : (0 : ℤ) < (digitsToNat (a :: b :: rest) : ℤ) ∧
      (digitsToNat (a :: b :: rest) : ℤ) < 10000 ∧ 0 < N := by
    refine ⟨by exact_mod_cast hpos, by exact_mod_cast hlt, hN⟩
  unfold NACA4
  rw [hint]
  have h0 : pyStrAt (String.mk (a :: b :: rest)) 0 = Except.ok a := by
    simp [pyStrAt]
  have h1 : pyStrAt (String.mk (a :: b :: rest)) 1 = Except.ok b := by
    simp [pyStrAt]
  have hdrop : String.mk ((String.mk (a :: b :: rest)).data.drop 2) = String.mk rest := rfl
  have hma : pyFloatChar a = Except.ok ((digitVal a : ℕ) : ℝ) := by
    simp [pyFloatChar, ha]
  have hmb : pyFloatChar b = Except.ok ((digitVal b : ℕ) : ℝ) := by
    simp [pyFloatChar, hb]
  have ht : pyFloatOfString (String.mk rest) = Except.ok ((digitsToNat rest : ℕ) : ℝ) := by
    simp [pyFloatOfString, hne, hrest]
  simp only [h0, hma, h1, hmb, hdrop, ht, scaleNonzero_eq_div, hcond.1, hcond.2.1,
    hcond.2.2, and_self, if_true]

/-! ### Lemmas about the sampling grid -/

theorem linspace_length (a b : ℝ) (n : ℕ) : (linspace a b n).length = n := by
  simp [linspace]

theorem grid_length (hcs : Bool) (n : ℕ) : (grid hcs n).length = n := by
  cases hcs <;> simp [grid, linspace]

theorem linspace_getElem (a b : ℝ) (n i : ℕ) (hi : i < n) :
    (linspace a b n)[i]? = some (a + (b - a) * i / ((n : ℝ) - 1)) := by
  simp [linspace, List.getElem?_map, List.getElem?_range hi]

theorem grid_true_getElem (n i : ℕ) (hi : i < n) :
    (grid true n)[i]? = some ((1 - Real.cos (Real.pi * i / ((n : ℝ) - 1))) / 2) := by
  simp only [grid, if_true, List.getElem?_map, linspace_getElem 0 Real.pi n i hi,
    Option.map_some]
  norm_num

theorem grid_false_getElem (n i : ℕ) (hi : i < n) :
    (grid false n)[i]? = some ((i : ℝ) / ((n : ℝ) - 1)) := by
  simp only [grid, Bool.false_eq_true, if_false, linspace_getElem 0 1 n i hi]
  norm_num

theorem grid_getElem_zero (hcs : Bool) (n : ℕ) (hn : 0 < n) :
    (grid hcs n)[0]? = some 0 := by
  cases hcs
  · rw [grid_false_getElem n 0 hn]
    norm_num
  · rw [grid_true_getElem n 0 hn]
    norm_num

theorem grid_head (hcs : Bool) (n : ℕ) (hn : 0 < n) : (grid hcs n).head? = some 0 := by
  have h := grid_getElem_zero hcs n hn
  cases hg : grid hcs n with
  | nil => rw [hg] at h; simp at h
  | cons x xs => rw [hg] at h; simp at h; simp [h]

theorem grid_getLast (hcs : Bool) (n : ℕ) (hn : 2 ≤ n) :
    (grid hcs n).getLast? = some 1 := by
  have hlen : (grid hcs n).length = n := grid_length hcs n
  have hcast : (((n - 1 : ℕ)) : ℝ) = (n : ℝ) - 1 := by
    have : 1 ≤ n := le_trans (by norm_num) hn
    push_cast [Nat.cast_sub this]
    ring
  have hne : ((n : ℝ) - 1) ≠ 0 := by
    have : (2 : ℝ) ≤ (n : ℝ) := by exact_mod_cast hn
    intro h
    nlinarith
  rw [List.getLast?_eq_getElem?, hlen]
  cases hcs
  · rw [grid_false_getElem n (n - 1) (by omega)]
    rw [hcast, div_self hne]
  · rw [grid_true_getElem n (n - 1) (by omega)]
    rw [hcast, mul_div_assoc, div_self hne, mul_one, Real.cos_pi]
    norm_num

theorem pairwise_lt_map_range (n : ℕ) (f : ℕ → ℝ)
    (hf : ∀ i j, i < j → j < n → f i < f j) :
    ((List.range n).map f).Pairwise (· < ·) := by
  rw [List.pairwise_map]
  exact (List.pairwise_lt_range n).imp_of_mem
    (fun {a b} _ hb hab => hf a b hab (List.mem_range.mp hb))

theorem grid_pairwise (hcs : Bool) (n : ℕ) : (grid hcs n).Pairwise (· < ·) := by
  rcases Nat.lt_or_ge n 2 with hn | hn
  · interval_cases n
    · cases hcs <;> simp [grid, linspace]
    · cases hcs <;> simp [grid, linspace]
  · have hd : (0 : ℝ) < (n : ℝ) - 1 := by
      have : (2 : ℝ) ≤ (n : ℝ) := by exact_mod_cast hn
      linarith
    cases hcs
    · rw [show grid false n =
          (List.range n).map (fun i : ℕ => 0 + (1 - 0) * (i : ℝ) / ((n : ℝ) - 1))
        from by simp [grid, linspace]]
      refine pairwise_lt_map_range n _ (fun i j hij hjn => ?_)
      have hij' : (i : ℝ) < (j : ℝ) := by exact_mod_cast hij
      simp only [zero_add, sub_zero, one_mul]
      exact div_lt_div_of_pos_right hij' hd
    · rw [show grid true n =
          (List.range n).map
            (fun i : ℕ => (1 - Real.cos (0 + (Real.pi - 0) * (i : ℝ) / ((n : ℝ) - 1))) / 2)
        from by simp [grid, linspace, List.map_map, Function.comp]]
      refine pairwise_lt_map_range n _ (fun i j hij hjn => ?_)
      have hij' : (i : ℝ) < (j : ℝ) := by exact_mod_cast hij
      have hjn' : (j : ℝ) ≤ (n : ℝ) - 1 := by
        have : (j : ℝ) + 1 ≤ (n : ℝ) := by exact_mod_cast hjn
        linarith
      have hpi := Real.pi_pos
      have hθij : Real.pi * i / ((n : ℝ) - 1) < Real.pi * j / ((n : ℝ) - 1) := by
        apply div_lt_div_of_pos_right _ hd
        exact (mul_lt_mul_left hpi).mpr hij'
      have hθi_mem : Real.pi * i / ((n : ℝ) - 1) ∈ Set.Icc 0 Real.pi := by
        constructor
        · positivity
        · rw [div_le_iff₀ hd]
          have : (i : ℝ) ≤ (n : ℝ) - 1 := le_trans (le_of_lt hij') hjn'
          nlinarith
      have hθj_mem : Real.pi * j / ((n : ℝ) - 1) ∈ Set.Icc 0 Real.pi := by
        constructor
        · positivity
        · rw [div_le_iff₀ hd]
          nlinarith
      have hcos := Real.strictAntiOn_cos hθi_mem hθj_mem hθij
      simp only [zero_add, sub_zero]
      linarith

theorem grid_pairwise_le (hcs : Bool) (n : ℕ) : (grid hcs n).Pairwise (· ≤ ·) :=
  (grid_pairwise hcs n).imp le_of_lt

/-! ### Per-station formulas (the spec's pointwise description, to be
compared with the array computation of the source) -/

/-- Camber at a single station, as the spec states it: forward polynomial
for `x < p`, aft polynomial for `x ≥ p`, zero when the airfoil is symmetric
(`m = 0` or `p` at a boundary). -/
noncomputable def camberAtSpec (m p x : ℝ) : ℝ :=
  if 0 < p ∧ p < 1 ∧ 0 < m ∧ m < 1 then
    if x < p then m / p ^ 2 * (2 * p * x - x ^ 2)
    else m / (1 - p) ^ 2 * ((1 - 2 * p) + 2 * p * x - x ^ 2)
  else 0

/-- Half-thickness at a single station, as the spec states it, with the `c₄`
coefficient selected by the closed-trailing-edge flag. -/
noncomputable def thicknessAtSpec (t : ℝ) (cte : Bool) (x : ℝ) : ℝ :=
  t / 0.20 * (0.29690 * Real.sqrt x - 0.12600 * x - 0.35160 * x ^ 2 + 0.28430 * x ^ 3 -
    (if cte then (0.10360 : ℝ) else 0.10150) * x ^ 4)

/-! ### The array computations agree with the per-station formulas -/

theorem thicknessList_eq_map (t : ℝ) (cte : Bool) (xs : List ℝ) :
    thicknessList t cte xs = xs.map (thicknessAtSpec t cte) := by
  cases cte
  · simp [thicknessList, thicknessOpenAt, thicknessAtSpec]
  · simp [thicknessList, thicknessClosedAt, thicknessAtSpec]

theorem filter_partition_map (p : ℝ) (f g : ℝ → ℝ) :
    ∀ xs : List ℝ, xs.Pairwise (· ≤ ·) →
      (xs.filter (fun xi => decide (xi < p))).map f ++
        (xs.filter (fun xi => decide (p ≤ xi))).map g =
      xs.map (fun xi => if xi < p then f xi else g xi) := by
  intro xs
  induction xs with
  | nil => intro _; rfl
  | cons x xs ih =>
    intro h
    rw [List.pairwise_cons] at h
    by_cases hx : x < p
    · have hnp : ¬ p ≤ x := not_le.mpr hx
      simp only [List.filter_cons, hx, hnp, decide_True, decide_False, Bool.false_eq_true,
        if_true, if_false, List.map_cons, List.cons_append]
      rw [ih h.2]
    · have hp : p ≤ x := not_lt.mp hx
      have hnil : xs.filter (fun xi => decide (xi < p)) = [] := by
        rw [List.filter_eq_nil_iff]
        intro y hy
        simp only [decide_eq_true_eq]
        exact not_lt.mpr (le_trans hp (h.1 y hy))
      have hall : xs.filter (fun xi => decide (p ≤ xi)) = xs := by
        rw [List.filter_eq_self]
        intro y hy
        simp only [decide_eq_true_eq]
        exact le_trans hp (h.1 y hy)
      simp only [List.filter_cons, hx, hp, decide_True, decide_False, Bool.false_eq_true,
        if_false, if_true, hnil, hall, List.map_nil, List.nil_append, List.map_cons]
      congr 1
      apply List.map_congr_left
      intro y hy
      rw [if_neg (not_lt.mpr (le_trans hp (h.1 y hy)))]

theorem replicate_zero_eq_map (xs : List ℝ) :
    List.replicate xs.length (0 : ℝ) = xs.map (fun _ => 0) := by
  induction xs with
  | nil => rfl
  | cons x xs ih =>
    simp only [List.length_cons, List.replicate_succ, List.map_cons]
    exact congrArg _ ih

theorem camberList_eq_map (m p : ℝ) (xs : List ℝ) (h : xs.Pairwise (· ≤ ·)) :
    camberList m p xs = xs.map (camberAtSpec m p) := by
  unfold camberList camberAtSpec
  by_cases hc : 0 < p ∧ p < 1 ∧ 0 < m ∧ m < 1
  · simp only [hc, if_true]
    exact filter_partition_map p _ _ xs h
  · simp only [hc, if_false]
    exact replicate_zero_eq_map xs

theorem zipWith_map_map (F : ℝ → ℝ → ℝ) (f g : ℝ → ℝ) (xs : List ℝ) :
    List.zipWith F (xs.map f) (xs.map g) = xs.map (fun x => F (f x) (g x)) := by
  induction xs with
  | nil => rfl
  | cons x xs ih => simp only [List.map_cons, List.zipWith_cons_cons, ih]

theorem yUpperList_eq_map (m p t : ℝ) (cte : Bool) (xs : List ℝ)
    (h : xs.Pairwise (· ≤ ·)) :
    yUpperList m p t cte xs =
      xs.map (fun x => camberAtSpec m p x + thicknessAtSpec t cte x) := by
  rw [yUpperList, camberList_eq_map m p xs h, thicknessList_eq_map]
  exact zipWith_map_map _ _ _ xs

theorem yLowerList_eq_map (m p t : ℝ) (cte : Bool) (xs : List ℝ)
    (h : xs.Pairwise (· ≤ ·)) :
    yLowerList m p t cte xs =
      xs.map (fun x => camberAtSpec m p x - thicknessAtSpec t cte x) := by
  rw [yLowerList, camberList_eq_map m p xs h, thicknessList_eq_map]
  exact zipWith_map_map _ _ _ xs

/-! ### Length lemmas -/

theorem length_filter_partition (p : ℝ) (xs : List ℝ) :
    (xs.filter (fun xi => decide (xi < p))).length +
      (xs.filter (fun xi => decide (p ≤ xi))).length = xs.length := by
  induction xs with
  | nil => rfl
  | cons x xs ih =>
    by_cases hx : x < p
    · have hnp : ¬ p ≤ x := not_le.mpr hx
      simp only [List.filter_cons, hx, hnp, decide_True, decide_False, Bool.false_eq_true,
        if_true, if_false, List.length_cons]
      omega
    · have hp : p ≤ x := not_lt.mp hx
      simp only [List.filter_cons, hx, hp, decide_True, decide_False, Bool.false_eq_true,
        if_true, if_false, List.length_cons]
      omega

theorem camberList_length (m p : ℝ) (xs : List ℝ) :
    (camberList m p xs).length = xs.length := by
  unfold camberList
  by_cases hc : 0 < p ∧ p < 1 ∧ 0 < m ∧ m < 1
  · rw [if_pos hc]
    simp only [List.length_append, List.length_map]
    exact length_filter_partition p xs
  · simp [hc]

theorem thicknessList_length (t : ℝ) (cte : Bool) (xs : List ℝ) :
    (thicknessList t cte xs).length = xs.length := by
  cases cte <;> simp [thicknessList]

theorem yUpperList_length (m p t : ℝ) (cte : Bool) (xs : List ℝ) :
    (yUpperList m p t cte xs).length = xs.length := by
  simp [yUpperList, camberList_length, thicknessList_length]

theorem yLowerList_length (m p t : ℝ) (cte : Bool) (xs : List ℝ) :
    (yLowerList m p t cte xs).length = xs.length := by
  simp [yLowerList, camberList_length, thicknessList_length]

theorem xAll_length (hcs : Bool) (N : ℕ) : (xAll hcs N).length = 2 * N - 1 := by
  simp only [xAll, List.length_append, List.length_reverse, List.length_drop, grid_length]
  omega

theorem yAll_length (m p t : ℝ) (N : ℕ) (hcs cte : Bool) :
    (yAll m p t N hcs cte).length = 2 * N - 1 := by
  simp only [yAll, List.length_append, List.length_reverse, List.length_drop,
    yUpperList_length, yLowerList_length, grid_length]
  omega

theorem yFinal_length (m p t : ℝ) (N : ℕ) (hcs cte : Bool) :
    (yFinal m p t N hcs cte).length = 2 * N - 1 := by
  unfold yFinal
  cases cte <;> simp [List.length_set, yAll_length]

theorem airfoil_length (m p t : ℝ) (N : ℕ) (hcs cte : Bool) :
    (airfoil m p t N hcs cte).length = 2 * N - 1 := by
  simp [airfoil, List.length_zip, xAll_length, yFinal_length]

/-! ### Zip distribution lemmas for the output assembly -/

theorem zip_reverse_eq (as bs : List ℝ) (h : as.length = bs.length) :
    as.reverse.zip bs.reverse = (as.zip bs).reverse := by
  induction as generalizing bs with
  | nil =>
    cases bs with
    | nil => rfl
    | cons b bs => simp at h
  | cons a as ih =>
    cases bs with
    | nil => simp at h
    | cons b bs =>
      simp only [List.length_cons, Nat.succ.injEq] at h
      simp only [List.reverse_cons, List.zip_cons_cons]
      rw [List.zip_append (by simp [h]), ih bs h]
      simp

theorem zip_drop_one (as bs : List ℝ) :
    (as.drop 1).zip (bs.drop 1) = (as.zip bs).drop 1 := by
  cases as <;> cases bs <;> simp

/-! ### Endpoint values of the per-station formulas -/

theorem camberAtSpec_zero (m p : ℝ) : camberAtSpec m p 0 = 0 := by
  unfold camberAtSpec
  by_cases hc : 0 < p ∧ p < 1 ∧ 0 < m ∧ m < 1
  · rw [if_pos hc, if_pos hc.1]
    ring
  · rw [if_neg hc]

theorem camberAtSpec_one (m p : ℝ) : camberAtSpec m p 1 = 0 := by
  unfold camberAtSpec
  by_cases hc : 0 < p ∧ p < 1 ∧ 0 < m ∧ m < 1
  · rw [if_pos hc, if_neg (not_lt.mpr (le_of_lt hc.2.1))]
    ring
  · rw [if_neg hc]

theorem thicknessAtSpec_zero (t : ℝ) (cte : Bool) : thicknessAtSpec t cte 0 = 0 := by
  unfold thicknessAtSpec
  rw [Real.sqrt_zero]
  ring

theorem thicknessAtSpec_closed_one (t : ℝ) : thicknessAtSpec t true 1 = 0 := by
  unfold thicknessAtSpec
  rw [Real.sqrt_one]
  norm_num

/-- The last grid station is the leading edge 0 (when `N = 1`) or the
trailing edge 1 (when `N ≥ 2`); at both, upper and lower closed-trailing-edge
surface heights are zero. -/
theorem grid_getLast_zero_or_one (hcs : Bool) (N : ℕ) (hn : 0 < N) :
    (grid hcs N).getLast? = some 0 ∨ (grid hcs N).getLast? = some 1 := by
  rcases Nat.lt_or_ge N 2 with h2 | h2
  · left
    have h1 : N = 1 := by omega
    subst h1
    rw [List.getLast?_eq_getElem?, grid_length]
    exact grid_getElem_zero hcs 1 (by omega)
  · right
    exact grid_getLast hcs N h2

theorem yAll_head_zero (m p t : ℝ) (N : ℕ) (hcs : Bool) (hn : 0 < N) :
    (yAll m p t N hcs true).head? = some 0 := by
  have hy := yUpperList_eq_map m p t true (grid hcs N) (grid_pairwise_le hcs N)
  have hne : yUpperList m p t true (grid hcs N) ≠ [] := by
    intro h
    have := yUpperList_length m p t true (grid hcs N)
    rw [h, grid_length] at this
    simp at this
    omega
  rw [yAll, List.head?_append, List.head?_reverse, hy, List.getLast?_map]
  rcases grid_getLast_zero_or_one hcs N hn with h | h
  · rw [h]
    simp [camberAtSpec_zero, thicknessAtSpec_zero]
  · rw [h]
    simp [camberAtSpec_one, thicknessAtSpec_closed_one]

theorem yAll_getLast_zero (m p t : ℝ) (N : ℕ) (hcs : Bool) (hn : 0 < N) :
    (yAll m p t N hcs true).getLast? = some 0 := by
  have hyU := yUpperList_eq_map m p t true (grid hcs N) (grid_pairwise_le hcs N)
  have hyL := yLowerList_eq_map m p t true (grid hcs N) (grid_pairwise_le hcs N)
  rw [yAll, List.getLast?_append]
  rcases Nat.lt_or_ge N 2 with h2 | h2
  · have h1 : N = 1 := by omega
    subst h1
    have hlen : (yLowerList m p t true (grid hcs 1)).length = 1 := by
      rw [yLowerList_length, grid_length]
    have hdrop : (yLowerList m p t true (grid hcs 1)).drop 1 = [] := by
      apply List.eq_nil_of_length_eq_zero
      rw [List.length_drop, hlen]
    rw [hdrop]
    simp only [List.getLast?_nil, Option.none_or, List.getLast?_reverse]
    rw [hyU, List.head?_map, grid_head hcs 1 (by omega)]
    simp [camberAtSpec_zero, thicknessAtSpec_zero]
  · have hlast : (yLowerList m p t true (grid hcs N)).getLast? = some 0 := by
      rw [hyL, List.getLast?_map, grid_getLast hcs N h2]
      simp [camberAtSpec_one, thicknessAtSpec_closed_one]
    have hlen : 2 ≤ (yLowerList m p t true (grid hcs N)).length := by
      rw [yLowerList_length, grid_length]
      exact h2
    cases hl : yLowerList m p t true (grid hcs N) with
    | nil => rw [hl] at hlen; simp at hlen
    | cons a l =>
      cases l with
      | nil => rw [hl] at hlen; simp at hlen
      | cons b l' =>
        rw [hl, List.getLast?_cons_cons] at hlast
        simp only [List.drop_one, List.tail_cons, hlast]
        rfl

/-! ### The set-to-zero steps do not change values that are already zero -/

theorem set_head_noop (l : List ℝ) (h : l.head? = some 0) : l.set 0 0 = l := by
  cases l with
  | nil => rfl
  | cons a t =>
    simp only [List.head?_cons, Option.some.injEq] at h
    simp [List.set_cons_zero, h]

theorem set_last_noop (l : List ℝ) (h : l.getLast? = some 0) :
    l.set (l.length - 1) 0 = l := by
  induction l with
  | nil => rfl
  | cons a t ih =>
    cases t with
    | nil =>
      simp only [List.getLast?_singleton, Option.some.injEq] at h
      simp [h]
    | cons b t' =>
      rw [List.getLast?_cons_cons] at h
      have hih := ih h
      rw [show (b :: t').length - 1 = t'.length from by simp] at hih
      rw [show (a :: b :: t').length - 1 = t'.length + 1 from by simp]
      rw [List.set_cons_succ, hih]

theorem yFinal_cte_eq_yAll (m p t : ℝ) (N : ℕ) (hcs : Bool) (hn : 0 < N) :
    yFinal m p t N hcs true = yAll m p t N hcs true := by
  unfold yFinal
  rw [if_pos rfl]
  rw [set_head_noop _ (yAll_head_zero m p t N hcs hn)]
  rw [set_last_noop _ (yAll_getLast_zero m p t N hcs hn)]

/-- The assembled coordinate list is the reversed upper surface followed by
the tail of the lower surface, each surface being the grid paired with its
y-values. -/
theorem airfoil_eq_surfaces (m p t : ℝ) (N : ℕ) (hcs cte : Bool) (hn : 0 < N) :
    airfoil m p t N hcs cte =
      ((grid hcs N).zip (yUpperList m p t cte (grid hcs N))).reverse ++
        ((grid hcs N).zip (yLowerList m p t cte (grid hcs N))).drop 1 := by
  have hyU : (grid hcs N).length = (yUpperList m p t cte (grid hcs N)).length :=
    (yUpperList_length m p t cte (grid hcs N)).symm
  have hfin : yFinal m p t N hcs cte = yAll m p t N hcs cte := by
    cases cte
    · rw [yFinal, if_neg (by simp)]
    · exact yFinal_cte_eq_yAll m p t N hcs hn
  rw [airfoil, hfin, xAll, yAll]
  rw [List.zip_append (by simp [hyU])]
  rw [zip_reverse_eq _ _ hyU, zip_drop_one]

/-! ### Error classification of the conversion helpers -/

theorem pyStrAt_error_eq {s : String} {i : ℕ} {e : PyError}
    (h : pyStrAt s i = Except.error e) : e = PyError.indexError := by
  unfold pyStrAt at h
  cases hx : s.data[i]? <;> rw [hx] at h <;> simp_all

theorem pyFloatChar_error_eq {c : Char} {e : PyError}
    (h : pyFloatChar c = Except.error e) : e = PyError.valueError := by
  unfold pyFloatChar at h
  by_cases hc : isDigitChar c <;> simp_all

theorem pyFloatOfString_error_eq {s : String} {e : PyError}
    (h : pyFloatOfString s = Except.error e) : e = PyError.valueError := by
  unfold pyFloatOfString at h
  by_cases hc : s.data ≠ [] ∧ allDigits s.data = true <;> simp_all

theorem validationPasses_true_iff (s : String) (N : ℕ) :
    validationPasses s N = true ↔
      ∃ v, pyInt s = some v ∧ 0 < v ∧ v < 10000 ∧ 0 < N := by
  unfold validationPasses
  cases pyInt s <;> simp [and_assoc]

/-- When the validation check passes, `NACA4` never raises the validation
`ValueError`: all later failures are conversion or indexing errors. -/
theorem NACA4_not_invalid (number : String) (N : ℕ) (hcs cte save : Bool)
    (h : validationPasses number N = true) :
    NACA4 number N hcs cte save ≠ Except.error PyError.invalidInput := by
  obtain ⟨v, hv, hcond⟩ := (validationPasses_true_iff number N).mp h
  unfold NACA4
  rw [hv]
  simp only [hcond.1, hcond.2.1, hcond.2.2, and_self, if_true]
  cases h0 : pyStrAt number 0 with
  | error e => simp [pyStrAt_error_eq h0]
  | ok c0 =>
    cases h1 : pyFloatChar c0 with
    | error e => simp [h1, pyFloatChar_error_eq h1]
    | ok m0 =>
      cases h2 : pyStrAt number 1 with
      | error e => simp [h1, h2, pyStrAt_error_eq h2]
      | ok c1 =>
        cases h3 : pyFloatChar c1 with
        | error e => simp [h1, h2, h3, pyFloatChar_error_eq h3]
        | ok p0 =>
          cases h4 : pyFloatOfString (String.mk (number.data.drop 2)) with
          | error e => simp [h1, h2, h3, h4, pyFloatOfString_error_eq h4]
          | ok t0 => simp [h1, h2, h3, h4]

theorem NACA4_invalid_iff (number : String) (N : ℕ) (hcs cte save : Bool) :
    NACA4 number N hcs cte save = Except.error PyError.invalidInput ↔
      validationPasses number N = false := by
  constructor
  · intro h
    by_contra hvp
    have hvp' : validationPasses number N = true := by
      cases hb : validationPasses number N
      · exact absurd hb hvp
      · rfl
    exact NACA4_not_invalid number N hcs cte save hvp' h
  · intro h
    unfold NACA4
    unfold validationPasses at h
    cases hv : pyInt number with
    | none => rfl
    | some v =>
      rw [hv] at h
      have hcond : ¬ (0 < v ∧ v < 10000 ∧ 0 < N) := by
        intro hc
        simp [hc.1, hc.2.1, hc.2.2] at h
      simp [hcond]

/-! ### Further endpoint and indexing lemmas -/

theorem getLast?_drop_one (l : List ℝ) (h : 2 ≤ l.length) :
    (l.drop 1).getLast? = l.getLast? := by
  cases l with
  | nil => simp at h
  | cons a t =>
    cases t with
    | nil => simp at h
    | cons b t' => simp [List.getLast?_cons_cons]

theorem head_set_set (l : List ℝ) (h : l ≠ []) :
    ((l.set 0 0).set (l.length - 1) 0).head? = some 0 := by
  cases l with
  | nil => exact absurd rfl h
  | cons a t =>
    cases t with
    | nil => rfl
    | cons b t' =>
      simp only [List.set_cons_zero, List.length_cons]
      rw [show t'.length + 1 + 1 - 1 = t'.length + 1 from by omega]
      rfl

theorem getLast_set_set (l : List ℝ) (h : l ≠ []) :
    ((l.set 0 0).set (l.length - 1) 0).getLast? = some 0 := by
  have hlen : ((l.set 0 0).set (l.length - 1) 0).length = l.length := by
    simp [List.length_set]
  have hpos : 0 < l.length := List.length_pos.mpr h
  rw [List.getLast?_eq_getElem?, hlen]
  exact List.getElem?_set_self (by simp [List.length_set]; omega)

theorem yFinal_head_cte (m p t : ℝ) (N : ℕ) (hcs : Bool) (hn : 0 < N) :
    (yFinal m p t N hcs true).head? = some 0 := by
  have hne : yAll m p t N hcs true ≠ [] := by
    intro h
    have := yAll_length m p t N hcs true
    rw [h] at this
    simp at this
    omega
  unfold yFinal
  rw [if_pos rfl]
  exact head_set_set _ hne

theorem yFinal_getLast_cte (m p t : ℝ) (N : ℕ) (hcs : Bool) (hn : 0 < N) :
    (yFinal m p t N hcs true).getLast? = some 0 := by
  have hne : yAll m p t N hcs true ≠ [] := by
    intro h
    have := yAll_length m p t N hcs true
    rw [h] at this
    simp at this
    omega
  unfold yFinal
  rw [if_pos rfl]
  exact getLast_set_set _ hne

theorem zip_getElem?_of (as bs : List ℝ) (i : ℕ) (x y : ℝ)
    (hx : as[i]? = some x) (hy : bs[i]? = some y) :
    (as.zip bs)[i]? = some (x, y) := by
  induction as generalizing bs i with
  | nil => simp at hx
  | cons a as ih =>
    cases bs with
    | nil => simp at hy
    | cons b bs =>
      cases i with
      | zero =>
        simp only [List.getElem?_cons_zero, Option.some.injEq] at hx hy
        simp [List.zip_cons_cons, hx, hy]
      | succ j =>
        simp only [List.getElem?_cons_succ] at hx hy
        simp only [List.zip_cons_cons, List.getElem?_cons_succ]
        exact ih bs j hx hy

theorem camberAtSpec_m_zero (p x : ℝ) : camberAtSpec 0 p x = 0 := by
  unfold camberAtSpec
  rw [if_neg]
  intro h
  exact lt_irrefl 0 h.2.2.1

theorem grid_one (hcs : Bool) : grid hcs 1 = [0] := by
  cases hcs
  · norm_num [grid, linspace, List.range_succ]
  · norm_num [grid, linspace, List.range_succ, Real.cos_zero]

/-- From a passing validation on an all-digit designator, extract the
numeric bounds. -/
theorem validationPasses_digits (a b : Char) (rest : List Char) (N : ℕ)
    (ha : isDigitChar a = true) (hb : isDigitChar b = true)
    (hrest : allDigits rest = true)
    (hval : validationPasses (String.mk (a :: b :: rest)) N = true) :
    0 < digitsToNat (a :: b :: rest) ∧ digitsToNat (a :: b :: rest) < 10000 ∧ 0 < N := by
  obtain ⟨v, hv, h1, h2, h3⟩ := (validationPasses_true_iff _ _).mp hval
  have hallv : allDigits (b :: rest) = true := by
    simp only [allDigits, List.all_cons, Bool.and_eq_true]
    exact ⟨hb, by simpa [allDigits] using hrest⟩
  rw [pyInt_digits a (b :: rest) ha hallv] at hv
  have hveq : v = ((digitsToNat (a :: b :: rest) : ℤ)) := by
    exact (Option.some.injEq _ _).mp hv.symm
  subst hveq
  exact ⟨by exact_mod_cast h1, by exact_mod_cast h2, h3⟩

/-- C1 (corrected).  A designator that passes the validation check and
consists of at least three digit characters yields, for every positive
point count, a coordinate list of exactly `2N - 1` pairs.  (The claim as
stated, quantified over every designator passing validation, fails: see the
counterexample.) -/
theorem C1_generate_length (a b : Char) (rest : List Char) (N : ℕ)
    (hcs cte save : Bool)
    (ha : isDigitChar a = true) (hb : isDigitChar b = true)
    (hrest : allDigits rest = true) (hne : rest ≠ [])
    (hval : validationPasses (String.mk (a :: b :: rest)) N = true) :
    ∃ l, NACA4 (String.mk (a :: b :: rest)) N hcs cte save = Except.ok l ∧
      l.length = 2 * N - 1 := by
  obtain ⟨hpos, hlt, hN⟩ := validationPasses_digits a b rest N ha hb hrest hval
  exact ⟨_, NACA4_ok a b rest N hcs cte save ha hb hrest hne hpos hlt hN,
    airfoil_length _ _ _ N hcs cte⟩

/-- C1 witness: the designator `"0012"` with `N = 3` produces 5 points. -/
theorem C1_generate_length_witness :
    ∃ l, NACA4 (String.mk ['0', '0', '1', '2']) 3 true true false = Except.ok l ∧
      l.length = 2 * 3 - 1 :=
  C1_generate_length '0' '0' ['1', '2'] 3 true true false (by decide) (by decide)
    (by decide) (by decide) (by decide)

/-- C1 counterexample: `"45"` passes the validation check
(`0 < 45 < 10000`) and `N = 7 > 0`, yet `NACA4` raises a `ValueError` from
`float("")` instead of returning `2*7 - 1` coordinate pairs. -/
theorem C1_generate_length_counterexample :
    validationPasses "45" 7 = true ∧
      NACA4 "45" 7 true true false = Except.error PyError.valueError :=
  ⟨by decide, rfl⟩

/-- C2 (corrected).  The validation `ValueError` is raised exactly when the
designator does not parse to an integer strictly between 0 and 10000 or the
point count is not positive; it is raised by the validation check before any
computation.  But validation alone does not guarantee error-free completion:
that additionally needs the designator to consist of at least three digit
characters (as every 4-digit designator does).  The three spec examples all
fail validation. -/
theorem C2_validation_errors :
    (∀ (number : String) (N : ℕ) (hcs cte save : Bool),
        NACA4 number N hcs cte save = Except.error PyError.invalidInput ↔
          validationPasses number N = false) ∧
    (∀ (a b : Char) (rest : List Char) (N : ℕ) (hcs cte save : Bool),
        isDigitChar a = true → isDigitChar b = true →
        allDigits rest = true → rest ≠ [] →
        validationPasses (String.mk (a :: b :: rest)) N = true →
        ∃ l, NACA4 (String.mk (a :: b :: rest)) N hcs cte save = Except.ok l) ∧
    NACA4 "0012" 0 true true false = Except.error PyError.invalidInput ∧
    NACA4 "99999" 10 true true false = Except.error PyError.invalidInput ∧
    NACA4 "-12" 10 true true false = Except.error PyError.invalidInput := by
  refine ⟨NACA4_invalid_iff, ?_, rfl, rfl, rfl⟩
  intro a b rest N hcs cte save ha hb hrest hne hval
  obtain ⟨hpos, hlt, hN⟩ := validationPasses_digits a b rest N ha hb hrest hval
  exact ⟨_, NACA4_ok a b rest N hcs cte save ha hb hrest hne hpos hlt hN⟩

/-- C2 witness: `"2412"` with `N = 5` passes validation and completes. -/
theorem C2_validation_errors_witness :
    ∃ l, NACA4 (String.mk ['2', '4', '1', '2']) 5 false true false = Except.ok l :=
  C2_validation_errors.2.1 '2' '4' ['1', '2'] 5 false true false (by decide) (by decide)
    (by decide) (by decide) (by decide)

/-- C2 counterexample: `"12"` passes the validation check, so the claim
says the call completes without raising; but the code raises a `ValueError`
from `float(number[2:])` on the empty slice. -/
theorem C2_validation_errors_counterexample :
    validationPasses "12" 10 = true ∧
      NACA4 "12" 10 true true false = Except.error PyError.valueError :=
  ⟨by decide, rfl⟩

/-- Concrete evaluation: designator `"0012"` with a single grid point gives
the single coordinate `(0, 0)` (the leading edge). -/
theorem naca4_0012_one (save : Bool) :
    NACA4 "0012" 1 true true save = Except.ok [((0 : ℝ), (0 : ℝ))] := by
  have h := NACA4_ok '0' '0' ['1', '2'] 1 true true save (by decide) (by decide)
    (by decide) (by decide) (by decide) (by decide) (by decide)
  rw [show "0012" = String.mk ['0', '0', '1', '2'] from rfl, h]
  congr 1
  have hd0 : digitVal '0' = 0 := by decide
  have hm : ((digitVal '0' : ℕ) : ℝ) / 100 = 0 := by rw [hd0]; norm_num
  have hp : ((digitVal '0' : ℕ) : ℝ) / 10 = 0 := by rw [hd0]; norm_num
  rw [hm, hp]
  unfold airfoil xAll yFinal yAll yUpperList yLowerList
  rw [grid_one]
  rw [camberList_eq_map _ _ _ (by simp), thicknessList_eq_map]
  simp only [List.map_cons, List.map_nil]
  rw [camberAtSpec_zero, thicknessAtSpec_zero]
  norm_num

/-- C7 (corrected).  For `N ≥ 2` the grid has length `N`, runs from 0 to 1,
is strictly increasing, and follows the half-cosine or linear formula.  (For
`N = 1` the claim as stated fails: the single grid point is 0, not 1; see
the counterexample.) -/
theorem C7_grid_invariants (N : ℕ) (hcs : Bool) (hN : 2 ≤ N) :
    (grid hcs N).length = N ∧
    (grid hcs N).head? = some 0 ∧
    (grid hcs N).getLast? = some 1 ∧
    (grid hcs N).Pairwise (· < ·) ∧
    (∀ i : ℕ, i < N →
      (grid true N)[i]? = some ((1 - Real.cos (Real.pi * (i : ℝ) / ((N : ℝ) - 1))) / 2)) ∧
    (∀ i : ℕ, i < N → (grid false N)[i]? = some ((i : ℝ) / ((N : ℝ) - 1))) :=
  ⟨grid_length hcs N, grid_head hcs N (by omega), grid_getLast hcs N hN,
    grid_pairwise hcs N, fun i hi => grid_true_getElem N i hi,
    fun i hi => grid_false_getElem N i hi⟩

/-- C7 witness at `N = 4` with half-cosine spacing. -/
theorem C7_grid_invariants_witness :
    (grid true 4).length = 4 ∧
    (grid true 4).head? = some 0 ∧
    (grid true 4).getLast? = some 1 ∧
    (grid true 4).Pairwise (· < ·) ∧
    (∀ i : ℕ, i < 4 →
      (grid true 4)[i]? = some ((1 - Real.cos (Real.pi * (i : ℝ) / (((4 : ℕ) : ℝ) - 1))) / 2)) ∧
    (∀ i : ℕ, i < 4 → (grid false 4)[i]? = some ((i : ℝ) / (((4 : ℕ) : ℝ) - 1))) :=
  C7_grid_invariants 4 true (by decide)

/-- C7 counterexample: for `N = 1` the grid is `[0]`, so its last element is
0, not 1 as the claim requires for every `N > 0`. -/
theorem C7_grid_invariants_counterexample :
    grid true 1 = [(0 : ℝ)] ∧ (grid true 1).getLast? = some (0 : ℝ) ∧ (0 : ℝ) ≠ 1 :=
  ⟨grid_one true, by rw [grid_one true]; rfl, by norm_num⟩

/-- The multiplicity of the leading edge 0 in the assembled x column is one. -/
theorem xAll_count_zero (hcs : Bool) (N : ℕ) (hN : 2 ≤ N) :
    ((grid hcs N).reverse ++ (grid hcs N).drop 1).count 0 = 1 := by
  have hlen : 2 ≤ (grid hcs N).length := by rw [grid_length]; omega
  have hhead := grid_head hcs N (by omega)
  have hpw := grid_pairwise hcs N
  cases hg : grid hcs N with
  | nil => rw [hg] at hlen; simp at hlen
  | cons x0 rest =>
    rw [hg] at hhead hpw
    simp only [List.head?_cons, Option.some.injEq] at hhead
    subst hhead
    rw [List.pairwise_cons] at hpw
    have hzero : (0 : ℝ) ∉ rest := by
      intro hmem
      exact lt_irrefl 0 (hpw.1 0 hmem)
    have hcount : rest.count (0 : ℝ) = 0 := List.count_eq_zero.mpr hzero
    rw [List.count_append, List.count_reverse, List.count_cons_self, hcount]
    simp [hcount]

/-- C3 (corrected).  For `N ≥ 2` the output is the reversed grid paired with
the upper surface heights, followed by the lower surface from the station
after the leading edge onwards in increasing-x order; the loop has length
`2N - 1`, starts and ends at the trailing edge `x = 1`, and visits the
leading edge `x = 0` exactly once.  (For `N = 1` the claim as stated fails:
the single output point is the leading edge; see the counterexample.) -/
theorem C3_output_ordering (a b c d : Char) (N : ℕ) (hcs cte save : Bool)
    (ha : isDigitChar a = true) (hb : isDigitChar b = true)
    (hc : isDigitChar c = true) (hd : isDigitChar d = true)
    (hpos : 0 < digitsToNat [a, b, c, d]) (hN : 2 ≤ N) :
    ∃ l, NACA4 (String.mk [a, b, c, d]) N hcs cte save = Except.ok l ∧
      l = ((grid hcs N).zip (yUpperList ((digitVal a : ℕ) / 100 : ℝ)
            ((digitVal b : ℕ) / 10 : ℝ) ((digitsToNat [c, d] : ℕ) / 100 : ℝ) cte
            (grid hcs N))).reverse ++
          ((grid hcs N).zip (yLowerList ((digitVal a : ℕ) / 100 : ℝ)
            ((digitVal b : ℕ) / 10 : ℝ) ((digitsToNat [c, d] : ℕ) / 100 : ℝ) cte
            (grid hcs N))).drop 1 ∧
      l.length = 2 * N - 1 ∧
      l.map Prod.fst = (grid hcs N).reverse ++ (grid hcs N).drop 1 ∧
      l.head?.map Prod.fst = some 1 ∧
      l.getLast?.map Prod.fst = some 1 ∧
      (l.map Prod.fst).count 0 = 1 := by
  have hrest : allDigits [c, d] = true := by
    simp [allDigits, hc, hd]
  have hall4 : allDigits [a, b, c, d] = true := by
    simp [allDigits, ha, hb, hc, hd]
  have hlt : digitsToNat [a, b, c, d] < 10000 := by
    have := digitsToNat_lt [a, b, c, d] hall4
    norm_num at this
    exact this
  have hok := NACA4_ok a b [c, d] N hcs cte save ha hb hrest (by simp) hpos hlt
    (by omega)
  have hmapfst : (airfoil ((digitVal a : ℕ) / 100 : ℝ) ((digitVal b : ℕ) / 10 : ℝ)
      ((digitsToNat [c, d] : ℕ) / 100 : ℝ) N hcs cte).map Prod.fst =
      (grid hcs N).reverse ++ (grid hcs N).drop 1 := by
    rw [airfoil, List.map_fst_zip _ _ (by rw [xAll_length, yFinal_length]), xAll]
  refine ⟨_, hok, airfoil_eq_surfaces _ _ _ N hcs cte (by omega),
    airfoil_length _ _ _ N hcs cte, hmapfst, ?_, ?_, ?_⟩
  · rw [← List.head?_map, hmapfst, List.head?_append, List.head?_reverse,
      grid_getLast hcs N hN]
    rfl
  · rw [← List.getLast?_map, hmapfst, List.getLast?_append,
      getLast?_drop_one _ (by rw [grid_length]; omega), grid_getLast hcs N hN]
    rfl
  · rw [hmapfst]
    exact xAll_count_zero hcs N hN

/-- C3 witness: designator `"2412"` with `N = 2`, half-cosine spacing,
closed trailing edge. -/
theorem C3_output_ordering_witness :
    ∃ l, NACA4 (String.mk ['2', '4', '1', '2']) 2 true true false = Except.ok l ∧
      l = ((grid true 2).zip (yUpperList ((digitVal '2' : ℕ) / 100 : ℝ)
            ((digitVal '4' : ℕ) / 10 : ℝ) ((digitsToNat ['1', '2'] : ℕ) / 100 : ℝ) true
            (grid true 2))).reverse ++
          ((grid true 2).zip (yLowerList ((digitVal '2' : ℕ) / 100 : ℝ)
            ((digitVal '4' : ℕ) / 10 : ℝ) ((digitsToNat ['1', '2'] : ℕ) / 100 : ℝ) true
            (grid true 2))).drop 1 ∧
      l.length = 2 * 2 - 1 ∧
      l.map Prod.fst = (grid true 2).reverse ++ (grid true 2).drop 1 ∧
      l.head?.map Prod.fst = some 1 ∧
      l.getLast?.map Prod.fst = some 1 ∧
      (l.map Prod.fst).count 0 = 1 :=
  C3_output_ordering '2' '4' '1' '2' 2 true true false (by decide) (by decide)
    (by decide) (by decide) (by decide) (by decide)

/-- C3 counterexample: for the valid input `"0012"`, `N = 1`, the single
output point has x-coordinate 0 (the leading edge), so the loop does not
start at the trailing edge `x = 1`. -/
theorem C3_output_ordering_counterexample :
    NACA4 "0012" 1 true true false = Except.ok [((0 : ℝ), (0 : ℝ))] ∧ (0 : ℝ) ≠ 1 :=
  ⟨naca4_0012_one false, by norm_num⟩

/-- C4 (confirmed).  The closed-trailing-edge thickness uses `c₄ = 0.10360`
against `0.10150` for the open variant — the only difference between the two
thickness polynomials — and with a closed trailing edge the first and last
y-coordinates of the returned sequence are exactly 0. -/
theorem C4_trailing_edge :
    (∀ (t x : ℝ) (cte : Bool),
      (if cte then thicknessClosedAt t x else thicknessOpenAt t x) =
        t / 0.20 * (0.29690 * Real.sqrt x - 0.12600 * x - 0.35160 * x ^ 2 +
          0.28430 * x ^ 3 - (if cte then (0.10360 : ℝ) else 0.10150) * x ^ 4)) ∧
    (∀ (a b c d : Char) (N : ℕ) (hcs save : Bool),
      isDigitChar a = true → isDigitChar b = true →
      isDigitChar c = true → isDigitChar d = true →
      0 < digitsToNat [a, b, c, d] → 0 < N →
      ∃ l, NACA4 (String.mk [a, b, c, d]) N hcs true save = Except.ok l ∧
        l.head?.map Prod.snd = some 0 ∧ l.getLast?.map Prod.snd = some 0) := by
  constructor
  · intro t x cte
    cases cte <;> rfl
  · intro a b c d N hcs save ha hb hc hd hpos hN
    have hrest : allDigits [c, d] = true := by simp [allDigits, hc, hd]
    have hall4 : allDigits [a, b, c, d] = true := by simp [allDigits, ha, hb, hc, hd]
    have hlt : digitsToNat [a, b, c, d] < 10000 := by
      have := digitsToNat_lt [a, b, c, d] hall4
      norm_num at this
      exact this
    have hok := NACA4_ok a b [c, d] N hcs true save ha hb hrest (by simp) hpos hlt hN
    have hmapsnd : (airfoil ((digitVal a : ℕ) / 100 : ℝ) ((digitVal b : ℕ) / 10 : ℝ)
        ((digitsToNat [c, d] : ℕ) / 100 : ℝ) N hcs true).map Prod.snd =
        yFinal ((digitVal a : ℕ) / 100 : ℝ) ((digitVal b : ℕ) / 10 : ℝ)
          ((digitsToNat [c, d] : ℕ) / 100 : ℝ) N hcs true := by
      rw [airfoil, List.map_snd_zip _ _ (by rw [xAll_length, yFinal_length])]
    refine ⟨_, hok, ?_, ?_⟩
    · rw [← List.head?_map, hmapsnd, yFinal_head_cte _ _ _ N hcs hN]
    · rw [← List.getLast?_map, hmapsnd, yFinal_getLast_cte _ _ _ N hcs hN]

/-- C4 witness: designator `"2412"` with `N = 2`. -/
theorem C4_trailing_edge_witness :
    ∃ l, NACA4 (String.mk ['2', '4', '1', '2']) 2 true true false = Except.ok l ∧
      l.head?.map Prod.snd = some 0 ∧ l.getLast?.map Prod.snd = some 0 :=
  C4_trailing_edge.2 '2' '4' '1' '2' 2 true false (by decide) (by decide) (by decide)
    (by decide) (by decide) (by decide)

/-- C5 (confirmed).  When `0 < p < 1` and `0 < m < 1` the camber array is the
grid mapped through the two-branch camber polynomial, a station exactly at
`p` falling in the aft branch; otherwise the camber is zero at every
station. -/
theorem C5_camber_formula (m p : ℝ) (N : ℕ) (hcs : Bool) :
    (0 < p ∧ p < 1 ∧ 0 < m ∧ m < 1 →
      camberList m p (grid hcs N) =
        (grid hcs N).map (fun x =>
          if x < p then m / p ^ 2 * (2 * p * x - x ^ 2)
          else m / (1 - p) ^ 2 * ((1 - 2 * p) + 2 * p * x - x ^ 2))) ∧
    (¬(0 < p ∧ p < 1 ∧ 0 < m ∧ m < 1) →
      camberList m p (grid hcs N) = List.replicate N 0) := by
  constructor
  · intro hcnd
    rw [camberList_eq_map m p _ (grid_pairwise_le hcs N)]
    apply List.map_congr_left
    intro x _
    unfold camberAtSpec
    rw [if_pos hcnd]
  · intro hcnd
    unfold camberList
    rw [if_neg hcnd, grid_length]

/-- C5 witness: `m = 0.02`, `p = 0.4` (designator `"24xx"`), `N = 3`. -/
theorem C5_camber_formula_witness :
    camberList ((2 : ℝ) / 100) ((4 : ℝ) / 10) (grid true 3) =
      (grid true 3).map (fun x =>
        if x < (4 : ℝ) / 10 then
          (2 : ℝ) / 100 / ((4 : ℝ) / 10) ^ 2 * (2 * ((4 : ℝ) / 10) * x - x ^ 2)
        else (2 : ℝ) / 100 / (1 - (4 : ℝ) / 10) ^ 2 *
          ((1 - 2 * ((4 : ℝ) / 10)) + 2 * ((4 : ℝ) / 10) * x - x ^ 2)) :=
  (C5_camber_formula ((2 : ℝ) / 100) ((4 : ℝ) / 10) 3 true).1 (by norm_num)

/-- C6 (confirmed).  For a 4-digit designator the thickness parameter is
digits 3-4 over 100, the thickness array follows the Abbott-von Doenhoff
polynomial with the flag-selected `c₄` at every grid station, and the upper
and lower surfaces add respectively subtract that same thickness to the
camber pointwise. -/
theorem C6_thickness_surfaces (a b c d : Char) (N : ℕ) (hcs cte save : Bool)
    (ha : isDigitChar a = true) (hb : isDigitChar b = true)
    (hc : isDigitChar c = true) (hd : isDigitChar d = true)
    (hpos : 0 < digitsToNat [a, b, c, d]) (hN : 0 < N) :
    NACA4 (String.mk [a, b, c, d]) N hcs cte save =
      Except.ok (airfoil ((digitVal a : ℕ) / 100 : ℝ) ((digitVal b : ℕ) / 10 : ℝ)
        ((digitsToNat [c, d] : ℕ) / 100 : ℝ) N hcs cte) ∧
    ((digitsToNat [c, d] : ℕ) : ℝ) = 10 * (digitVal c : ℕ) + (digitVal d : ℕ) ∧
    thicknessList ((digitsToNat [c, d] : ℕ) / 100 : ℝ) cte (grid hcs N) =
      (grid hcs N).map (fun x =>
        ((digitsToNat [c, d] : ℕ) / 100 : ℝ) / 0.20 *
          (0.29690 * Real.sqrt x - 0.12600 * x - 0.35160 * x ^ 2 + 0.28430 * x ^ 3 -
            (if cte then (0.10360 : ℝ) else 0.10150) * x ^ 4)) ∧
    yUpperList ((digitVal a : ℕ) / 100 : ℝ) ((digitVal b : ℕ) / 10 : ℝ)
        ((digitsToNat [c, d] : ℕ) / 100 : ℝ) cte (grid hcs N) =
      (grid hcs N).map (fun x =>
        camberAtSpec ((digitVal a : ℕ) / 100 : ℝ) ((digitVal b : ℕ) / 10 : ℝ) x +
          thicknessAtSpec ((digitsToNat [c, d] : ℕ) / 100 : ℝ) cte x) ∧
    yLowerList ((digitVal a : ℕ) / 100 : ℝ) ((digitVal b : ℕ) / 10 : ℝ)
        ((digitsToNat [c, d] : ℕ) / 100 : ℝ) cte (grid hcs N) =
      (grid hcs N).map (fun x =>
        camberAtSpec ((digitVal a : ℕ) / 100 : ℝ) ((digitVal b : ℕ) / 10 : ℝ) x -
          thicknessAtSpec ((digitsToNat [c, d] : ℕ) / 100 : ℝ) cte x) := by
  have hrest : allDigits [c, d] = true := by simp [allDigits, hc, hd]
  have hall4 : allDigits [a, b, c, d] = true := by simp [allDigits, ha, hb, hc, hd]
  have hlt : digitsToNat [a, b, c, d] < 10000 := by
    have := digitsToNat_lt [a, b, c, d] hall4
    norm_num at this
    exact this
  refine ⟨NACA4_ok a b [c, d] N hcs cte save ha hb hrest (by simp) hpos hlt hN, ?_, ?_,
    yUpperList_eq_map _ _ _ cte _ (grid_pairwise_le hcs N),
    yLowerList_eq_map _ _ _ cte _ (grid_pairwise_le hcs N)⟩
  · have hnat : digitsToNat [c, d] = 10 * digitVal c + digitVal d := by
      simp [digitsToNat, digitVal, List.foldl]
    rw [hnat]
    push_cast
    ring
  · rw [thicknessList_eq_map]
    apply List.map_congr_left
    intro x _
    rfl

/-- C6 witness: designator `"2412"`, `N = 2`, linear spacing, open trailing
edge. -/
theorem C6_thickness_surfaces_witness :
    NACA4 (String.mk ['2', '4', '1', '2']) 2 false false false =
      Except.ok (airfoil ((digitVal '2' : ℕ) / 100 : ℝ) ((digitVal '4' : ℕ) / 10 : ℝ)
        ((digitsToNat ['1', '2'] : ℕ) / 100 : ℝ) 2 false false) ∧
    ((digitsToNat ['1', '2'] : ℕ) : ℝ) = 10 * (digitVal '1' : ℕ) + (digitVal '2' : ℕ) ∧
    thicknessList ((digitsToNat ['1', '2'] : ℕ) / 100 : ℝ) false (grid false 2) =
      (grid false 2).map (fun x =>
        ((digitsToNat ['1', '2'] : ℕ) / 100 : ℝ) / 0.20 *
          (0.29690 * Real.sqrt x - 0.12600 * x - 0.35160 * x ^ 2 + 0.28430 * x ^ 3 -
            (if false then (0.10360 : ℝ) else 0.10150) * x ^ 4)) ∧
    yUpperList ((digitVal '2' : ℕ) / 100 : ℝ) ((digitVal '4' : ℕ) / 10 : ℝ)
        ((digitsToNat ['1', '2'] : ℕ) / 100 : ℝ) false (grid false 2) =
      (grid false 2).map (fun x =>
        camberAtSpec ((digitVal '2' : ℕ) / 100 : ℝ) ((digitVal '4' : ℕ) / 10 : ℝ) x +
          thicknessAtSpec ((digitsToNat ['1', '2'] : ℕ) / 100 : ℝ) false x) ∧
    yLowerList ((digitVal '2' : ℕ) / 100 : ℝ) ((digitVal '4' : ℕ) / 10 : ℝ)
        ((digitsToNat ['1', '2'] : ℕ) / 100 : ℝ) false (grid false 2) =
      (grid false 2).map (fun x =>
        camberAtSpec ((digitVal '2' : ℕ) / 100 : ℝ) ((digitVal '4' : ℕ) / 10 : ℝ) x -
          thicknessAtSpec ((digitsToNat ['1', '2'] : ℕ) / 100 : ℝ) false x) :=
  C6_thickness_surfaces '2' '4' '1' '2' 2 false false false (by decide) (by decide)
    (by decide) (by decide) (by decide) (by decide)

/-- C8 (confirmed).  For a designator whose first digit is 0 (`maxCamber`
= 0, e.g. `"0012"`), the camber is 0 at every station and the lower surface
is the exact pointwise negative of the upper surface. -/
theorem C8_symmetric_airfoil (b c d : Char) (N : ℕ) (hcs cte save : Bool)
    (hb : isDigitChar b = true) (hc : isDigitChar c = true) (hd : isDigitChar d = true)
    (hpos : 0 < digitsToNat ['0', b, c, d]) (hN : 0 < N) :
    ∃ l, NACA4 (String.mk ['0', b, c, d]) N hcs cte save = Except.ok l ∧
      camberList ((digitVal '0' : ℕ) / 100 : ℝ) ((digitVal b : ℕ) / 10 : ℝ)
        (grid hcs N) = List.replicate N 0 ∧
      yLowerList ((digitVal '0' : ℕ) / 100 : ℝ) ((digitVal b : ℕ) / 10 : ℝ)
          ((digitsToNat [c, d] : ℕ) / 100 : ℝ) cte (grid hcs N) =
        (yUpperList ((digitVal '0' : ℕ) / 100 : ℝ) ((digitVal b : ℕ) / 10 : ℝ)
          ((digitsToNat [c, d] : ℕ) / 100 : ℝ) cte (grid hcs N)).map (fun y => -y) := by
  have hrest : allDigits [c, d] = true := by simp [allDigits, hc, hd]
  have hall4 : allDigits ['0', b, c, d] = true := by
    simp [allDigits, hb, hc, hd]
    decide
  have hlt : digitsToNat ['0', b, c, d] < 10000 := by
    have := digitsToNat_lt ['0', b, c, d] hall4
    norm_num at this
    exact this
  have hm : ((digitVal '0' : ℕ) : ℝ) / 100 = 0 := by
    rw [show digitVal '0' = 0 from by decide]
    norm_num
  refine ⟨_, NACA4_ok '0' b [c, d] N hcs cte save (by decide) hb hrest (by simp)
    hpos hlt hN, ?_, ?_⟩
  · rw [hm]
    unfold camberList
    rw [if_neg (fun h => lt_irrefl 0 h.2.2.1), grid_length]
  · rw [yLowerList_eq_map _ _ _ cte _ (grid_pairwise_le hcs N),
      yUpperList_eq_map _ _ _ cte _ (grid_pairwise_le hcs N), List.map_map]
    apply List.map_congr_left
    intro x _
    simp only [Function.comp, hm, camberAtSpec_m_zero]
    ring

/-- C8 witness: designator `"0012"`, `N = 3`. -/
theorem C8_symmetric_airfoil_witness :
    ∃ l, NACA4 (String.mk ['0', '0', '1', '2']) 3 true true false = Except.ok l ∧
      camberList ((digitVal '0' : ℕ) / 100 : ℝ) ((digitVal '0' : ℕ) / 10 : ℝ)
        (grid true 3) = List.replicate 3 0 ∧
      yLowerList ((digitVal '0' : ℕ) / 100 : ℝ) ((digitVal '0' : ℕ) / 10 : ℝ)
          ((digitsToNat ['1', '2'] : ℕ) / 100 : ℝ) true (grid true 3) =
        (yUpperList ((digitVal '0' : ℕ) / 100 : ℝ) ((digitVal '0' : ℕ) / 10 : ℝ)
          ((digitsToNat ['1', '2'] : ℕ) / 100 : ℝ) true (grid true 3)).map (fun y => -y) :=
  C8_symmetric_airfoil '0' '1' '2' 3 true true false (by decide) (by decide) (by decide)
    (by decide) (by decide)

/-- C10 (confirmed).  For every valid 4-digit designator and every `N > 0`,
the output point at index `N - 1` is exactly the leading edge `(0, 0)`. -/
theorem C10_leading_edge (a b c d : Char) (N : ℕ) (hcs cte save : Bool)
    (ha : isDigitChar a = true) (hb : isDigitChar b = true)
    (hc : isDigitChar c = true) (hd : isDigitChar d = true)
    (hpos : 0 < digitsToNat [a, b, c, d]) (hN : 0 < N) :
    ∃ l, NACA4 (String.mk [a, b, c, d]) N hcs cte save = Except.ok l ∧
      l[N - 1]? = some ((0 : ℝ), (0 : ℝ)) := by
  have hrest : allDigits [c, d] = true := by simp [allDigits, hc, hd]
  have hall4 : allDigits [a, b, c, d] = true := by simp [allDigits, ha, hb, hc, hd]
  have hlt : digitsToNat [a, b, c, d] < 10000 := by
    have := digitsToNat_lt [a, b, c, d] hall4
    norm_num at this
    exact this
  refine ⟨_, NACA4_ok a b [c, d] N hcs cte save ha hb hrest (by simp) hpos hlt hN, ?_⟩
  set m := ((digitVal a : ℕ) : ℝ) / 100 with hm
  set p := ((digitVal b : ℕ) : ℝ) / 10 with hp
  set t := ((digitsToNat [c, d] : ℕ) : ℝ) / 100 with ht
  have hx : (xAll hcs N)[N - 1]? = some 0 := by
    rw [xAll, List.getElem?_append_left (by simp [grid_length]; omega),
      List.getElem?_reverse (by rw [grid_length]; omega), grid_length]
    rw [show N - 1 - (N - 1) = 0 from by omega]
    exact grid_getElem_zero hcs N hN
  have hyAllv : (yAll m p t N hcs cte)[N - 1]? = some 0 := by
    have hyUlen : (yUpperList m p t cte (grid hcs N)).length = N := by
      rw [yUpperList_length, grid_length]
    rw [yAll, List.getElem?_append_left (by simp [hyUlen]; omega),
      List.getElem?_reverse (by rw [hyUlen]; omega), hyUlen]
    rw [show N - 1 - (N - 1) = 0 from by omega]
    rw [yUpperList_eq_map _ _ _ cte _ (grid_pairwise_le hcs N), List.getElem?_map,
      grid_getElem_zero hcs N hN]
    simp [camberAtSpec_zero, thicknessAtSpec_zero]
  have hy : (yFinal m p t N hcs cte)[N - 1]? = some 0 := by
    cases cte
    · rw [yFinal, if_neg (by simp)]
      exact hyAllv
    · rw [yFinal, if_pos rfl]
      rcases Nat.lt_or_ge N 2 with h2 | h2
      · have h1 : N = 1 := by omega
        subst h1
        have hidx : (yAll m p t 1 hcs true).length - 1 = 1 - 1 := by
          rw [yAll_length]
        rw [hidx]
        exact List.getElem?_set_self (by rw [List.length_set, yAll_length]; omega)
      · have hne0 : (0 : ℕ) ≠ N - 1 := by omega
        have hne1 : (yAll m p t N hcs true).length - 1 ≠ N - 1 := by
          rw [yAll_length]
          omega
        rw [List.getElem?_set, if_neg hne1, List.getElem?_set, if_neg hne0]
        exact hyAllv
  exact zip_getElem?_of _ _ _ _ _ hx hy

/-- C10 witness: designator `"2412"`, `N = 2`: the point at index 1 is the
leading edge `(0, 0)`. -/
theorem C10_leading_edge_witness :
    ∃ l, NACA4 (String.mk ['2', '4', '1', '2']) 2 true true false = Except.ok l ∧
      l[2 - 1]? = some ((0 : ℝ), (0 : ℝ)) :=
  C10_leading_edge '2' '4' '1' '2' 2 true true false (by decide) (by decide)
    (by decide) (by decide) (by decide) (by decide)

/-- C9 (corrected).  With `save_to_file` the returned coordinates are
unchanged, the file is named `"NACA <designator>.dat"`, and its content is
a header line followed by `2N - 1` tab-separated coordinate lines — but the
header line is `"# NACA <designator>"`, not `"NACA <designator>"`, because
`np.savetxt` prefixes headers with its default comment marker `"# "`. -/
theorem C9_file_output (fmt : ℝ → String) (a b c d : Char) (N : ℕ) (hcs cte : Bool)
    (ha : isDigitChar a = true) (hb : isDigitChar b = true)
    (hc : isDigitChar c = true) (hd : isDigitChar d = true)
    (hpos : 0 < digitsToNat [a, b, c, d]) (hN : 0 < N) :
    ∃ l, NACA4 (String.mk [a, b, c, d]) N hcs cte false = Except.ok l ∧
      NACA4 (String.mk [a, b, c, d]) N hcs cte true = Except.ok l ∧
      NACA4FileContent fmt (String.mk [a, b, c, d]) N hcs cte =
        Except.ok ("# " ++ ("NACA " ++ String.mk [a, b, c, d]) ++ "\n" ++
          String.join (l.map (fun r => fmt r.1 ++ "\t" ++ fmt r.2 ++ "\n"))) ∧
      l.length = 2 * N - 1 ∧
      savedFileName (String.mk [a, b, c, d]) =
        "NACA " ++ String.mk [a, b, c, d] ++ ".dat" := by
  have hrest : allDigits [c, d] = true := by simp [allDigits, hc, hd]
  have hall4 : allDigits [a, b, c, d] = true := by simp [allDigits, ha, hb, hc, hd]
  have hlt : digitsToNat [a, b, c, d] < 10000 := by
    have := digitsToNat_lt [a, b, c, d] hall4
    norm_num at this
    exact this
  have hok := NACA4_ok a b [c, d] N hcs cte false ha hb hrest (by simp) hpos hlt hN
  have hok' := NACA4_ok a b [c, d] N hcs cte true ha hb hrest (by simp) hpos hlt hN
  refine ⟨_, hok, hok', ?_, airfoil_length _ _ _ N hcs cte, rfl⟩
  rw [NACA4FileContent, hok']
  rfl

/-- C9 witness: designator `"0012"`, `N = 1`, with a constant format
function. -/
theorem C9_file_output_witness :
    ∃ l, NACA4 (String.mk ['0', '0', '1', '2']) 1 true true false = Except.ok l ∧
      NACA4 (String.mk ['0', '0', '1', '2']) 1 true true true = Except.ok l ∧
      NACA4FileContent (fun _ => "0.000000") (String.mk ['0', '0', '1', '2']) 1 true true =
        Except.ok ("# " ++ ("NACA " ++ String.mk ['0', '0', '1', '2']) ++ "\n" ++
          String.join (l.map (fun r => "0.000000" ++ "\t" ++ "0.000000" ++ "\n"))) ∧
      l.length = 2 * 1 - 1 ∧
      savedFileName (String.mk ['0', '0', '1', '2']) =
        "NACA " ++ String.mk ['0', '0', '1', '2'] ++ ".dat" :=
  C9_file_output (fun _ => "0.000000") '0' '0' '1' '2' 1 true true (by decide)
    (by decide) (by decide) (by decide) (by decide) (by decide)

/-- C9 counterexample: for `"0012"` with one point the file starts with the
line `"# NACA 0012"`, not with the bare header line `"NACA 0012"` that the
claim requires. -/
theorem C9_file_output_counterexample :
    NACA4FileContent (fun _ => "0.000000") "0012" 1 true true =
      Except.ok "# NACA 0012\n0.000000\t0.000000\n" ∧
    firstLine "# NACA 0012\n0.000000\t0.000000\n" = "# NACA 0012" ∧
    "# NACA 0012" ≠ "NACA 0012" := by
  refine ⟨?_, by decide, by decide⟩
  rw [NACA4FileContent, naca4_0012_one true]
  rfl

end Naca
